import Mathlib

/-
  Verification of the mongoose-couch core against its specification.

  The definitions below are a shallow embedding of the JavaScript source:
  - src/lib/model.js          (Model.ensureIndexes, Model.discriminator,
                               Model.prototype.save / handleSave,
                               Model.prototype.remove)
  - src/unnamed/part_000      (abstract Collection: maybeQueueCall, doQueue)

  JavaScript strings are Lean String, JS objects with a fixed set of keys are
  Lean structures with Option-valued fields (none = property absent), and JS
  key-to-value objects of unbounded shape are association lists looked up by
  first match, which is adequate because the engine never creates a duplicate
  key.  Thrown exceptions are an explicit error value.  Helpers that live in
  modules of this repository that are not part of the provided sources
  (utils.js, schema.js, promise.js) are modelled from the spec and say so in
  their doc comment.
-/

set_option maxRecDepth 20000

/-! ## Small JavaScript string primitives -/

/-- The opening-brace character, written by code point. -/
def lbrace : Char := Char.ofNat 123

/-- The closing-brace character, written by code point. -/
def rbrace : Char := Char.ofNat 125

/-- JS String.prototype.replace with a plain-string pattern replaces only the
first occurrence of the pattern and returns the input unchanged when the
pattern does not occur.  This is the list version. -/
def replaceFirstL (pat repl : List Char) : List Char → List Char
  | [] => []
  | c :: rest =>
    if pat.isPrefixOf (c :: rest) then repl ++ (c :: rest).drop pat.length
    else c :: replaceFirstL pat repl rest

/-- JS first-occurrence string replace, on String. -/
def replaceFirstS (pat repl s : String) : String :=
  String.mk (replaceFirstL pat.data repl.data s.data)

/-- JS s.replace(regex anchored-leading-whitespace, empty) removes the leading
whitespace run of the string (the regex has no multiline flag, so the anchor
only matches at the start). -/
def stripLeadingWhitespace (s : String) : String :=
  String.mk (s.data.dropWhile Char.isWhitespace)

/-- JS name.charAt(0).toUpperCase() + name.slice(1). -/
def capFirst (s : String) : String :=
  match s.data with
  | [] => ""
  | c :: rest => String.mk (c.toUpper :: rest)

/-- JS string interpolation of a possibly-null string value. -/
def jsStr : Option String → String
  | some s => s
  | none => "null"

/-! ## Missing-module helpers, modelled from the spec -/

/-- Modelled from the spec: utils.toCollectionName (utils.js is not under
src/).  The spec calls its result the collection-style name of a model name;
mongoose lowercases and pluralizes.  The exact text is irrelevant to the
claims, which only distinguish this scope string from the literal root scope. -/
def toCollectionName (s : String) : String := String.mk (s.data.map Char.toLower) ++ "s"

/-- The two ways the synchronous part of ensureIndexes can throw. -/
inductive JsErr where
  /-- new Error(modelName + ": More than one custom index defined as default.") -/
  | moreThanOneDefault
  /-- TypeError raised by utils.toCollectionName when handed the null
  discriminator value of a root schema (null has no toLowerCase). -/
  | typeError
deriving DecidableEq

/-- Modelled from the spec: applying utils.toCollectionName to a JS value that
may be null.  On null the standard implementation dereferences
null.toLowerCase and throws a TypeError. -/
def jsToCollectionName : Option String → Except JsErr String
  | some s => .ok (toCollectionName s)
  | none => .error .typeError

/-! ## Schema data for ensureIndexes -/

/-- The index specifier of one schema field: absent, plain, or a key-modifier
expression string (spec section 3: index is off, on, or a key-modifier). -/
inductive IndexFlag where
  | off
  | on
  | keyMod (s : String)
deriving DecidableEq

/-- One declared schema field, as far as index synthesis reads it. -/
structure SField where
  name : String
  index : IndexFlag
deriving DecidableEq

/-- schema.discriminatorMapping: root schemas carry value null and isRoot
true, derived schemas carry the variant name and isRoot false. -/
structure DiscriminatorMapping where
  key : String
  value : Option String
  isRoot : Bool
deriving DecidableEq

/-- One custom view given in schema options views: map and optional reduce
source text, plus the asDefaultIndex flag read by ensureIndexes.  (A version
field may also be present but is never read by the engine.) -/
structure ViewSpec where
  map : Option String := none
  reduce : Option String := none
  asDefaultIndex : Bool := false
deriving DecidableEq

/-- The slice of a compiled schema that Model.ensureIndexes reads. -/
structure ModelSchema where
  /-- Declared fields in declaration order, including the automatic _id
  field (mongoose always places it in schema.tree). -/
  fields : List SField
  views : Option (List (String × ViewSpec)) := none
  updates : Option (List (String × String)) := none
  lists : Option (List (String × String)) := none
  forcePlainDiscriminatorIndex : Bool := false
  discriminatorMapping : Option DiscriminatorMapping := none
deriving DecidableEq

/-- Modelled from the spec: schema.indexes() (schema.js is not under src/)
returns one entry per implicitly indexed field, in declaration order; the
engine only ever reads the single field name of each entry, so the embedding
keeps just the names. -/
def schemaIndexes (s : ModelSchema) : List String :=
  (s.fields.filter (fun f => f.index ≠ IndexFlag.off)).map (fun f => f.name)

/-- Modelled from the spec: schema.tree[name].index.  The engine keeps the
value only when it is a string (a key-modifier expression). -/
def treeIndex (s : ModelSchema) (name : String) : IndexFlag :=
  match s.fields.find? (fun f => f.name = name) with
  | some f => f.index
  | none => IndexFlag.off

/-- The custom views object iterated by ensureIndexes (empty when the schema
has none). -/
def jsViews (s : ModelSchema) : List (String × ViewSpec) :=
  match s.views with
  | some vs => vs
  | none => []

/-! ## Design documents -/

/-- One stored view definition: map and reduce function source text. -/
structure ViewDef where
  map : Option String := none
  reduce : Option String := none
deriving DecidableEq

/-- The design document as read and written by ensureIndexes.  Fields are
Option because the engine deletes whole properties (delete design.views). -/
structure DesignDoc where
  views : Option (List (String × ViewDef)) := none
  updates : Option (List (String × String)) := none
  lists : Option (List (String × String)) := none
deriving DecidableEq

/-- First-match association lookup, the embedding of JS property access on an
object held as a key-to-value list. -/
def lookupA {α : Type} (k : String) : List (String × α) → Option α
  | [] => none
  | kv :: rest => if kv.1 = k then some kv.2 else lookupA k rest

/-- JS obj[k] = v: overwrite the existing property or append a new one. -/
def setAssoc {α : Type} (k : String) (v : α) : List (String × α) → List (String × α)
  | [] => [(k, v)]
  | kv :: rest => if kv.1 = k then (k, v) :: rest else kv :: setAssoc k v rest

/-- hasEquivalentFunctions from Model.ensureIndexes: both undefined is
equivalent, one undefined is not, and otherwise every key of the first object
must exist in the second with identical source text.  (The comparison is
deliberately asymmetric in the source: extra keys of the second object are
not examined.) -/
def hasEquivalentFunctions : Option (List (String × String)) → Option (List (String × String)) → Bool
  | none, none => true
  | none, some _ => false
  | some _, none => false
  | some a, some b =>
    a.all (fun kv =>
      match lookupA kv.1 b with
      | some w => w = kv.2
      | none => false)

/-- A view definition seen as the JS object that hasEquivalentFunctions
iterates over. -/
def ViewDef.toPairs (v : ViewDef) : List (String × String) :=
  (match v.map with
   | some m => [("map", m)]
   | none => []) ++
  (match v.reduce with
   | some r => [("reduce", r)]
   | none => [])

/-- hasEquivalentFunctions applied to a stored view entry (possibly absent)
and a freshly computed definition. -/
def hasEquivalentViewDef (a : Option ViewDef) (b : ViewDef) : Bool :=
  hasEquivalentFunctions (a.map ViewDef.toPairs) (some b.toPairs)

/-! ## The discriminator guard and the list-function rewrite -/

/-- The guard line prepended to every map function of a non-root
discriminator schema: skip the document unless its discriminator field holds
the variant value. -/
def discriminatorEarlyOut (key value : String) : String :=
  "if (doc['" ++ key ++ "'] !== '" ++ value ++ "') return;"

/-- The raw template literal for the overridden getRow helper spliced into
custom list functions of discriminated schemas, before its two replace
calls.  Indentation and line breaks reproduce the source template. -/
def listHandlerTemplate (key value : String) : String :=
  "\n          var getDiscriminatedRow = function() \x7b\n            var row; while ((row = getRow())) \x7b\n              if (row.value." ++ key ++ " === '" ++ value ++ "')\n                break;\n            \x7d\n            return row;\n          \x7d;"

/-- listDiscriminatorHandler: the template with its leading whitespace run
removed and its first newline turned into a space. -/
def listDiscriminatorHandler (key value : String) : String :=
  replaceFirstS "\n" " " (stripLeadingWhitespace (listHandlerTemplate key value))

/-- The rewrite applied to each custom list function of a discriminated
schema: rename the first getRow occurrence and splice the handler after the
first opening brace. -/
def rewriteListFn (handler src : String) : String :=
  replaceFirstS "\x7b" ("\x7b" ++ handler) (replaceFirstS "getRow" "getDiscriminatedRow" src)

/-- The list-function rewrite step of the ensureIndexes callback.  It
computes the value that the source assigns back into schema.options.lists
(mutating the schema in place). -/
def rewriteLists (schema : ModelSchema) (earlyOut : String) : Option (List (String × String)) :=
  match schema.lists with
  | none => none
  | some ls =>
    if earlyOut = "" then some ls
    else
      match schema.discriminatorMapping with
      | some m =>
        some (ls.map (fun nv => (nv.1, rewriteListFn (listDiscriminatorHandler m.key (jsStr m.value)) nv.2)))
      | none => some ls

/-! ## The ensureIndexes engine -/

/-- The mutable state threaded through maybeUpdateIndex inside the
ensureIndexes callback: the views object being edited, the modified flag, and
the two name lists used for pruning. -/
structure MUIState where
  views : List (String × ViewDef)
  modified : Bool
  customViewNames : List String
  indexViewNames : List String
deriving DecidableEq

/-- maybeUpdateIndex from the ensureIndexes callback.  With a spec it records
a custom view (guarding its map when the schema is a discriminated variant);
without one it synthesizes the by-field view for an implicitly indexed
field.  The stored entry is replaced, and the modified flag raised, only when
the stored entry is not textually equivalent. -/
def maybeUpdateIndex (schema : ModelSchema) (earlyOut : String) (st : MUIState)
    (name : String) (spec : Option ViewSpec) : MUIState :=
  let viewName :=
    match spec with
    | some _ => name
    | none => "by" ++ capFirst name
  let st :=
    match spec with
    | some _ => { st with customViewNames := st.customViewNames ++ [viewName] }
    | none => { st with indexViewNames := st.indexViewNames ++ [viewName] }
  let vdef : ViewDef :=
    match spec with
    | some sp =>
      { map :=
          match sp.map with
          | some m => some (if earlyOut = "" then m else replaceFirstS "\x7b" ("\x7b" ++ earlyOut) m)
          | none => none
        reduce := sp.reduce }
    | none =>
      let keyModifier :=
        match treeIndex schema name with
        | IndexFlag.keyMod s => s
        | _ => ""
      { map := some ("function(doc)\x7b" ++ earlyOut ++ "emit(doc." ++ name ++ keyModifier ++ ",doc);\x7d")
        reduce := none }
  if hasEquivalentViewDef (lookupA viewName st.views) vdef then st
  else { st with views := setAssoc viewName vdef st.views, modified := true }

/-- The two maybeUpdateIndex loops of the callback: first the implied
indexes, then the custom views, in source order. -/
def processViews (schema : ModelSchema) (earlyOut : String) (indexes : List String)
    (views0 : List (String × ViewDef)) (modified0 : Bool) : MUIState :=
  let st0 : MUIState := { views := views0, modified := modified0, customViewNames := [], indexViewNames := [] }
  let st1 := indexes.foldl (fun st name => maybeUpdateIndex schema earlyOut st name none) st0
  (jsViews schema).foldl (fun st kv => maybeUpdateIndex schema earlyOut st kv.1 (some kv.2)) st1

/-- The pruning step of the callback: when nothing is required the whole
views property is dropped (and the document counts as modified); otherwise
every stored view that is neither a required custom view nor a required
index view is deleted, raising the modified flag if anything was deleted. -/
def pruneViews (st : MUIState) : Option (List (String × ViewDef)) × Bool :=
  if st.customViewNames.isEmpty && st.indexViewNames.isEmpty then
    (none, true)
  else
    let keep := fun (nv : String × ViewDef) =>
      st.customViewNames.contains nv.1 || st.indexViewNames.contains nv.1
    (some (st.views.filter keep), st.modified || st.views.any (fun nv => !keep nv))

/-- The body of the findById callback of ensureIndexes: starting from the
stored design document (or a fresh one), reconcile updates, lists and views,
returning the resulting document and the modified flag that decides whether
it is written back. -/
def callbackDesign (schema : ModelSchema) (stored : Option DesignDoc)
    (earlyOut : String) (indexes : List String) : DesignDoc × Bool :=
  let design0 :=
    match stored with
    | some d => d
    | none => {}
  let design1 := if design0.views.isNone then { design0 with views := some [] } else design0
  let modified1 := !hasEquivalentFunctions design1.updates schema.updates
  let design2 := if modified1 then { design1 with updates := schema.updates } else design1
  let customLists := rewriteLists schema earlyOut
  let modified2 :=
    if hasEquivalentFunctions design2.lists customLists then modified1 else true
  let design3 :=
    if hasEquivalentFunctions design2.lists customLists then design2
    else { design2 with lists := customLists }
  let st := processViews schema earlyOut indexes
      (match design3.views with | some vs => vs | none => []) modified2
  let pruned := pruneViews st
  ({ design3 with views := pruned.1 }, pruned.2)

/-- The observable outcome of one ensureIndexes run: the error, if one was
thrown synchronously; whether the ensuringIndexes counter was incremented and
the design document read; the value assigned to model.defaultView (outer none
when the assignment was never reached); the design-document id targeted; the
schema list functions after the run (the source mutates them in place); and
the conditional write. -/
structure EnsureRun where
  err : Option JsErr := none
  incremented : Bool := false
  readDesign : Bool := false
  designDocId : Option String := none
  defaultView : Option (Option String) := none
  listsAfter : Option (List (String × String)) := none
  wrote : Bool := false
  written : Option DesignDoc := none
deriving DecidableEq

/-- The loop over schema options views that picks the explicit default view
and throws on a second one.  The design-doc scope of the reference is the
collection-style name of the discriminator value whenever the schema carries
any discriminatorMapping, and the root scope only when it carries none. -/
def defaultViewLoop (schema : ModelSchema) (dv : Option String) :
    List (String × ViewSpec) → Except JsErr (Option String)
  | [] => .ok dv
  | kv :: rest =>
    if kv.2.asDefaultIndex then
      if dv.isSome then .error .moreThanOneDefault
      else
        match schema.discriminatorMapping with
        | some m =>
          match jsToCollectionName m.value with
          | .ok cn => defaultViewLoop schema (some (cn ++ "/" ++ kv.1)) rest
          | .error e => .error e
        | none => defaultViewLoop schema (some ("$root/" ++ kv.1)) rest
    else defaultViewLoop schema dv rest

/-- The implied-indexes section of ensureIndexes: for a non-root
discriminated schema compute the variant design-doc id and the guard line,
possibly add the synthetic _id index, and derive the default view; note that
a default view picked from the custom views is overwritten here whenever the
variant has an implied index or forces the plain index. -/
def impliedIndexes (schema : ModelSchema) (indexes : List String) (dv0 : Option String) :
    Except JsErr (String × String × List String × Option String) :=
  match schema.discriminatorMapping with
  | some m =>
    if m.isRoot then .ok ("$root", "", indexes, dv0)
    else
      match jsToCollectionName m.value with
      | .error e => .error e
      | .ok dd =>
        let earlyOut := discriminatorEarlyOut m.key (jsStr m.value)
        if (indexes.length = 0 && dv0.isNone) || schema.forcePlainDiscriminatorIndex then
          .ok (dd, earlyOut, indexes ++ ["_id"], some (dd ++ "/by_id"))
        else
          match indexes with
          | [] => .ok (dd, earlyOut, indexes, dv0)
          | f :: _ => .ok (dd, earlyOut, indexes, some (dd ++ "/by" ++ capFirst f))
  | none => .ok ("$root", "", indexes, dv0)

/-- Model.ensureIndexes as an exception-carrying computation.  The throws of
the source happen before the counter increment, the defaultView assignment
and the design-document read, which is why the error exits carry no effect
flags. -/
def ensureIndexesE (schema : ModelSchema) (stored : Option DesignDoc) :
    Except JsErr EnsureRun :=
  match defaultViewLoop schema none (jsViews schema) with
  | .error e => .error e
  | .ok dv0 =>
    match impliedIndexes schema (schemaIndexes schema) dv0 with
    | .error e => .error e
    | .ok (designDocId, earlyOut, indexes, dv) =>
      if indexes.isEmpty && schema.views.isNone && schema.updates.isNone && schema.lists.isNone then
        .ok { listsAfter := schema.lists }
      else
        let dm := callbackDesign schema stored earlyOut indexes
        .ok { err := none
              incremented := true
              readDesign := true
              designDocId := some designDocId
              defaultView := some dv
              listsAfter := rewriteLists schema earlyOut
              wrote := dm.2
              written := if dm.2 then some dm.1 else none }

/-- Model.ensureIndexes: one full run against the stored design document,
with a thrown error recorded in the outcome (nothing incremented, read or
written in that case, since every throw precedes those statements in the
source). -/
def ensureIndexes (schema : ModelSchema) (stored : Option DesignDoc) : EnsureRun :=
  match ensureIndexesE schema stored with
  | .ok r => r
  | .error e => { err := some e, listsAfter := schema.lists }

/-- Whether the schema carries a discriminatorMapping whose value is the JS
null of a root schema; only then can the toCollectionName TypeError fire. -/
def hasRootNullMapping (schema : ModelSchema) : Bool :=
  match schema.discriminatorMapping with
  | some m => m.value.isNone
  | none => false

/-! ## Collection command queue (src/unnamed/part_000) -/

/-- One queued call: the method, its waitForIndexes flag, and its argument
list (both held abstractly). -/
structure QueueEntry where
  fn : Nat
  waitForIndexes : Bool
  args : Nat
deriving DecidableEq

/-- The queueing state of a Collection. -/
structure CollectionState where
  buffer : Bool
  ensuringDb : Bool
  ensuringIndexes : Nat
  queue : List QueueEntry
deriving DecidableEq

/-- Collection.prototype.maybeQueueCall: append the call to the queue when
the collection buffers or the call must wait for an in-progress index run,
starting the single-flight ensureDb bootstrap when none is in flight; the
Bool reports whether the call was deferred. -/
def maybeQueueCall (c : CollectionState) (e : QueueEntry) : CollectionState × Bool :=
  if c.buffer || (e.waitForIndexes && c.ensuringIndexes ≠ 0) then
    let c := { c with queue := c.queue ++ [e] }
    let c := if c.ensuringDb then c else { c with ensuringDb := true }
    (c, true)
  else (c, false)

/-- The loop body of Collection.prototype.doQueue over the snapshot of the
queue: an index-gated entry met while indexing is pushed onto the fresh
queue, every other entry is executed; both sides keep the snapshot order.
Returns (new queue, executed entries in execution order). -/
def doQueuePass (indexing : Bool) : List QueueEntry → List QueueEntry × List QueueEntry
  | [] => ([], [])
  | e :: rest =>
    let (q, ex) := doQueuePass indexing rest
    if e.waitForIndexes && indexing then (e :: q, ex) else (q, e :: ex)

/-- Collection.prototype.doQueue: snapshot and clear the queue, then replay
it in arrival order, re-queueing the entries that still wait for indexes. -/
def doQueue (c : CollectionState) : CollectionState × List QueueEntry :=
  let (q, ex) := doQueuePass (c.ensuringIndexes ≠ 0) c.queue
  ({ c with queue := q }, ex)

/-! ## Document save protocol (Model.prototype.save, handleSave) -/

/-- The per-document state that the save protocol reads and writes. -/
structure DocState where
  _id : String
  _rev : String
  isNew : Bool
  inserting : Bool
deriving DecidableEq

/-- The store write submitted by save: an insert of the serialized document
(store-level upsert by id). -/
inductive WriteReq where
  | insert (id rev : String)
deriving DecidableEq

/-- How the store answers the write. -/
inductive SaveOutcome where
  | failure (err : String)
  | success (id rev : String)
deriving DecidableEq

/-- What the completion promise reports to the caller; the callback fires it
exactly once and then drops the promise. -/
inductive Notification where
  | errored (err : String)
  | completed
deriving DecidableEq

/-- The synchronous part of Model.prototype.save: submit the insert of the
serialized document, then flip the local flags.  A new document turns
isNew off and records inserting; an existing document records that it is not
inserting (so a later failure will not be treated as a first insert). -/
def saveSubmit (d : DocState) : DocState × WriteReq :=
  if d.isNew then
    ({ d with isNew := false, inserting := true }, WriteReq.insert d._id d._rev)
  else
    ({ d with inserting := false }, WriteReq.insert d._id d._rev)

/-- handleSave, the completion callback built for every save: on failure it
restores isNew when the write was a first insert and surfaces the error; on
success it adopts the confirmed id and revision and completes. -/
def handleSave (d : DocState) : SaveOutcome → DocState × Notification
  | SaveOutcome.failure e =>
    if d.inserting then ({ d with isNew := true }, Notification.errored e)
    else (d, Notification.errored e)
  | SaveOutcome.success i r => ({ d with _id := i, _rev := r }, Notification.completed)

/-! ## Document removal (Model.prototype.remove) -/

/-- Modelled from the spec: the promise stored in the removing slot
(promise.js is not under src/).  It carries the completions attached so far
(Promise(fn) and addBack both attach) and, once complete was called, the
settled success marker. -/
structure RemovePromise where
  callbacks : List Nat
  settled : Option Bool := none
deriving DecidableEq

/-- The removal-relevant state of one document instance. -/
structure RemState where
  _id : String
  _rev : String
  removing : Option RemovePromise := none
deriving DecidableEq

/-- The delete issued to the store. -/
inductive DeleteReq where
  | remove (id rev : String)
deriving DecidableEq

/-- Model.prototype.remove: with a promise already in the removing slot the
new completion is attached to it (addBack) and nothing is sent to the store;
otherwise a fresh promise is stored and one collection.remove is issued. -/
def removeCall (s : RemState) (fn : Nat) : RemState × List DeleteReq :=
  match s.removing with
  | some p => ({ s with removing := some { p with callbacks := p.callbacks ++ [fn] } }, [])
  | none =>
    ({ s with removing := some { callbacks := [fn], settled := none } },
     [DeleteReq.remove s._id s._rev])

/-- The collection.remove callback inside Model.prototype.remove: on error
it rejects the promise and nulls the removing slot; on success it completes
the promise and leaves the removing slot holding the settled promise.  The
returned list pairs each attached completion with the shared outcome;
distributing one resolution to every attached completion is modelled from the
spec of the missing promise module. -/
def removeResolve (s : RemState) (ok : Bool) : RemState × List (Nat × Bool) :=
  match s.removing with
  | some p =>
    if ok then
      ({ s with removing := some { p with settled := some true } },
       p.callbacks.map (fun f => (f, true)))
    else
      ({ s with removing := none }, p.callbacks.map (fun f => (f, false)))
  | none => (s, [])

/-! ## Discriminator registration (Model.discriminator) -/

/-- The schema options record handled by the discriminator merge.  Fields
that JS may leave undefined are Option; extra stands for any further options
outside the named set, as an association list.  Modelled equality stands for
utils.deepEqual (utils.js is not under src/): on these finite records deep
equality is structural equality, with association lists compared in order,
adequate because the merge never reorders keys. -/
structure SchemaOptions where
  collection : Option String := none
  autoIndex : Option Bool := none
  disableCache : Option Bool := none
  toJSON : Option String := none
  toObject : Option String := none
  views : Option (List (String × ViewSpec)) := none
  updates : Option (List (String × String)) := none
  lists : Option (List (String × String)) := none
  forcePlainDiscriminatorIndex : Option Bool := none
  discriminatorKey : String := "$kind"
  extra : List (String × String) := []
deriving DecidableEq

/-- The slice of a Schema that Model.discriminator reads and merges. -/
structure DSchema where
  paths : List String
  options : SchemaOptions
  discriminatorMapping : Option DiscriminatorMapping := none
deriving DecidableEq

/-- How Model.discriminator can fail. -/
inductive DiscErr where
  | nonRootParent
  | keyFieldExists
  | invalidOptions
  | duplicateName
deriving DecidableEq

/-- The unconditional copy of collection, autoIndex and disableCache from
the root options into the child options, applied before validation; each is
copied only when present on the root (JS: opt in baseSchema.options). -/
def copyRootOnly (child base : SchemaOptions) : SchemaOptions :=
  { child with
    collection := if base.collection.isSome then base.collection else child.collection
    autoIndex := if base.autoIndex.isSome then base.autoIndex else child.autoIndex
    disableCache := if base.disableCache.isSome then base.disableCache else child.disableCache }

/-- Modelled from the spec: utils.merge(a, b, keepExisting = true) on option
records (utils.js is not under src/): a keeps every option it has and gains
the options only b has; for the extra list, keys of b absent from a are
appended. -/
def mergeKeepExisting (a b : SchemaOptions) : SchemaOptions :=
  { collection := a.collection <|> b.collection
    autoIndex := a.autoIndex <|> b.autoIndex
    disableCache := a.disableCache <|> b.disableCache
    toJSON := a.toJSON <|> b.toJSON
    toObject := a.toObject <|> b.toObject
    views := a.views <|> b.views
    updates := a.updates <|> b.updates
    lists := a.lists <|> b.lists
    forcePlainDiscriminatorIndex := a.forcePlainDiscriminatorIndex <|> b.forcePlainDiscriminatorIndex
    discriminatorKey := a.discriminatorKey
    extra := a.extra ++ b.extra.filter (fun kv => (lookupA kv.1 a.extra).isNone) }

/-- The neutralization loop of validateOptions: every customizable option of
the merged record is forced to the value of the base when the base value is
truthy and deleted otherwise, so that only non-customizable differences
survive into the deep-equality check.  (forcePlainDiscriminatorIndex is a
boolean option, so a base value of false is falsy and clears the slot.) -/
def neutralizeCustomizable (a base : SchemaOptions) : SchemaOptions :=
  { a with
    toJSON := base.toJSON
    toObject := base.toObject
    views := base.views
    updates := base.updates
    lists := base.lists
    forcePlainDiscriminatorIndex :=
      if base.forcePlainDiscriminatorIndex = some true then base.forcePlainDiscriminatorIndex
      else none }

/-- validateOptions from Model.discriminator: clone the child options, merge
the base options in keeping existing values, neutralize the customizable
subset, and require deep equality with the base options. -/
def validateOptions (childOpts base : SchemaOptions) : Bool :=
  decide (neutralizeCustomizable (mergeKeepExisting childOpts base) base = base)

/-- The option merge that mergeSchemas performs once validation passed:
views, updates, lists and forcePlainDiscriminatorIndex are put aside and
restored afterwards (a falsy put-aside value deletes the option outright, so
the root versions never leak into the child), everything else is merged
keeping the child values. -/
def mergeChildOptions (childOpts base : SchemaOptions) : SchemaOptions :=
  let saved := (childOpts.views, childOpts.updates, childOpts.lists,
                childOpts.forcePlainDiscriminatorIndex)
  let stripped := { childOpts with
    views := none, updates := none, lists := none, forcePlainDiscriminatorIndex := none }
  let merged := mergeKeepExisting stripped base
  { merged with
    views := saved.1
    updates := saved.2.1
    lists := saved.2.2.1
    forcePlainDiscriminatorIndex :=
      if saved.2.2.2 = some true then saved.2.2.2 else none }

/-- Whether the parent model passes the root check of Model.discriminator:
either no discriminatorMapping yet, or a root mapping. -/
def parentRootOk (parent : DSchema) : Bool :=
  match parent.discriminatorMapping with
  | some m => m.isRoot
  | none => true

/-- Model.discriminator(name, childSchema) on the validation-and-merge path:
reject a non-root parent, a child path named like the discriminator key,
and any non-customizable option divergence; then build the merged schema
(child fields win, root-only fields are added, the discriminator key field
is appended with the variant name as default and the mapping is set) and
reject a duplicate registration.  An error return means nothing was
registered under the name, since the JS throw precedes the registry write. -/
def discriminator (parent : DSchema) (registered : List String) (name : String)
    (child : DSchema) : Except DiscErr DSchema :=
  if !parentRootOk parent then .error .nonRootParent
  else
    let key := parent.options.discriminatorKey
    if child.paths.contains key then .error .keyFieldExists
    else
      let childOpts := copyRootOnly child.options parent.options
      if !validateOptions childOpts parent.options then .error .invalidOptions
      else
        let mergedOpts := mergeChildOptions childOpts parent.options
        let mergedPaths :=
          child.paths ++ parent.paths.filter (fun p => !child.paths.contains p) ++ [key]
        let merged : DSchema :=
          { paths := mergedPaths
            options := mergedOpts
            discriminatorMapping := some { key := key, value := some name, isRoot := false } }
        if registered.contains name then .error .duplicateName
        else .ok merged

/-! ## Guard predicate and guarded-map semantics -/

/-- A map source begins with the discriminator guard: right after the first
opening brace of the source (the function body opener) stands the guard
line. -/
def mapGuarded (key value s : String) : Prop :=
  ∃ p r, s.data = p ++ lbrace :: ((discriminatorEarlyOut key value).data ++ r) ∧ lbrace ∉ p

/-- Modelled from the spec: the runtime behaviour of a map function whose
body begins with the guard line - on a document whose discriminator field
differs from the variant value it returns before emitting anything, and
otherwise the original body runs. -/
def evalGuardedMap (key value : String)
    (body : (String → String) → List (String × (String → String)))
    (doc : String → String) : List (String × (String → String)) :=
  if doc key = value then body doc else []

/-- The names that survive the pruning step: required custom view names
followed by required index view names. -/
def requiredNames (st : MUIState) : List String :=
  st.customViewNames ++ st.indexViewNames

/-- Every required view currently held in the state whose definition has a
map source carries the discriminator guard. -/
def GuardedSt (key value : String) (st : MUIState) : Prop :=
  ∀ n vd, lookupA n st.views = some vd → n ∈ requiredNames st →
    ∀ s, vd.map = some s → mapGuarded key value s

/-! ## Concrete instances used by counterexamples and witnesses -/

/-- The discriminatorMapping of a derived Group variant, as the example
schema of the repository produces it. -/
def groupMapping : DiscriminatorMapping :=
  { key := "$kind", value := some "Group", isRoot := false }

/-- A representative custom list function source. -/
def demoListSrc : String :=
  "function(head, req) \x7b var row; while ((row = getRow())) \x7b send(row.value.name); \x7d \x7d"

/-- A derived Group schema that declares one custom list function and no
indexed fields. -/
def listsSchema : ModelSchema :=
  { fields := [{ name := "_id", index := IndexFlag.off },
               { name := "name", index := IndexFlag.off }]
    lists := some [("all", demoListSrc)]
    discriminatorMapping := some groupMapping }

/-- The same schema after one ensureIndexes run, with its list functions as
the run left them (the source rewrites schema.options.lists in place). -/
def listsSchemaAfterFirstRun : ModelSchema :=
  { listsSchema with lists := (ensureIndexes listsSchema none).listsAfter }

/-- A custom view flagged as the default index. -/
def customNamesView : ViewSpec :=
  { map := some "function (doc) \x7b emit(doc.name, doc); \x7d", asDefaultIndex := true }

/-- A derived Group schema with one implicitly indexed field and one custom
view flagged as the default index. -/
def c7Schema : ModelSchema :=
  { fields := [{ name := "_id", index := IndexFlag.off },
               { name := "name", index := IndexFlag.on }]
    views := some [("names", customNamesView)]
    discriminatorMapping := some groupMapping }

/-- The discriminatorMapping that a root schema carries once a discriminator
has been registered on it: isRoot true, value null. -/
def rootNullMapping : DiscriminatorMapping :=
  { key := "$kind", value := none, isRoot := true }

/-- A root schema carrying a root discriminatorMapping and two custom views
both flagged as the default index. -/
def c5Schema : ModelSchema :=
  { fields := [{ name := "_id", index := IndexFlag.off }]
    views := some [("a", { map := some "function (doc) \x7b emit(doc.a, doc); \x7d",
                           asDefaultIndex := true }),
                   ("b", { map := some "function (doc) \x7b emit(doc.b, doc); \x7d",
                           asDefaultIndex := true })]
    discriminatorMapping := some rootNullMapping }

/-- A derived Group schema with one indexed field and one unflagged custom
view, the witness input for the discriminator guard claim. -/
def c2Schema : ModelSchema :=
  { fields := [{ name := "_id", index := IndexFlag.off },
               { name := "name", index := IndexFlag.on }]
    views := some [("displayNames",
                    { map := some "function (doc) \x7b emit(doc.displayName, doc); \x7d" })]
    discriminatorMapping := some groupMapping }

/-- A root schema for discriminator registration. -/
def c9Parent : DSchema :=
  { paths := ["_id", "name"], options := { collection := some "namedentities" } }

/-- A child schema whose options differ from the root only in collection. -/
def c9Child : DSchema :=
  { paths := ["department"], options := { collection := some "elsewhere" } }

/-- A child schema with no option of its own. -/
def c9PlainChild : DSchema :=
  { paths := ["department"], options := { collection := some "namedentities" } }

/-- A fresh new document about to be saved for the first time. -/
def doc0 : DocState := { _id := "101", _rev := "", isNew := true, inserting := false }

/-- A persisted document whose first insert is still unacknowledged:
isNew already false, inserting still true. -/
def doc1 : DocState := { _id := "101", _rev := "1-a", isNew := false, inserting := true }

/-- A document instance with no removal in flight. -/
def rem0 : RemState := { _id := "102", _rev := "1-b" }

/-- A parent whose schema is itself a non-root discriminator. -/
def c9BadParent : DSchema :=
  { paths := ["_id", "name"], options := { collection := some "namedentities" },
    discriminatorMapping := some groupMapping }

/-- A child schema that declares the discriminator key as a path. -/
def c9KeyChild : DSchema :=
  { paths := ["$kind"], options := { collection := some "namedentities" } }

/-- A child schema with a divergent discriminator-key option. -/
def c9KeyOptChild : DSchema :=
  { paths := ["department"],
    options := { collection := some "namedentities", discriminatorKey := "$type" } }

/-- A child schema with a divergent option outside the customizable set. -/
def c9ExtraChild : DSchema :=
  { paths := ["department"],
    options := { collection := some "namedentities", extra := [("strict", "false")] } }

/-! ## Queue lemmas -/

theorem doQueuePass_eq (indexing : Bool) (l : List QueueEntry) :
    doQueuePass indexing l =
      (l.filter (fun e => e.waitForIndexes && indexing),
       l.filter (fun e => !(e.waitForIndexes && indexing))) := by
  induction l with
  | nil => rfl
  | cons e rest ih =>
    rw [doQueuePass, ih]
    cases hw : e.waitForIndexes <;> cases hi : indexing <;>
      simp [List.filter_cons, hw, hi]

/-- C3: a doQueue flush executes exactly the entries that do not wait on an
in-progress index run, in original arrival order, and re-appends the waiting
entries to the fresh queue in their original relative order; entries arrive
in the queue by maybeQueueCall appending at the tail, so queue order is
submission order. -/
theorem c3_queue_flush_fifo (c : CollectionState) (e : QueueEntry) :
    (doQueue c).2 = c.queue.filter (fun x => !(x.waitForIndexes && decide (c.ensuringIndexes ≠ 0)))
    ∧ (doQueue c).1.queue
        = c.queue.filter (fun x => x.waitForIndexes && decide (c.ensuringIndexes ≠ 0))
    ∧ (maybeQueueCall c e).1.queue
        = (if (maybeQueueCall c e).2 then c.queue ++ [e] else c.queue) := by
  refine ⟨?_, ?_, ?_⟩
  · simp [doQueue, doQueuePass_eq]
  · simp [doQueue, doQueuePass_eq]
  · by_cases h : (c.buffer || (e.waitForIndexes && decide (c.ensuringIndexes ≠ 0))) = true
    · simp only [maybeQueueCall, h, if_true]
      cases hd : c.ensuringDb <;> simp [hd]
    · simp only [maybeQueueCall]
      rw [if_neg (by simpa using h)]
      simp [maybeQueueCall] at h
      simp [h]

/-! ## Save protocol theorems -/

/-- C4: saving a new document submits the insert and flips isNew off and
inserting on before the write resolves; a failing write restores isNew and
surfaces the error, and a retry submits an insert with the same identifier;
a successful write adopts the store id and revision and completes. -/
theorem c4_save_insert_retry (d : DocState) (h : d.isNew = true) :
    (saveSubmit d).1.isNew = false
    ∧ (saveSubmit d).1.inserting = true
    ∧ (saveSubmit d).2 = WriteReq.insert d._id d._rev
    ∧ (∀ e, (handleSave (saveSubmit d).1 (SaveOutcome.failure e)).1.isNew = true
        ∧ (handleSave (saveSubmit d).1 (SaveOutcome.failure e)).2 = Notification.errored e
        ∧ (saveSubmit (handleSave (saveSubmit d).1 (SaveOutcome.failure e)).1).2
            = WriteReq.insert d._id d._rev)
    ∧ (∀ i r, (handleSave (saveSubmit d).1 (SaveOutcome.success i r)).1._id = i
        ∧ (handleSave (saveSubmit d).1 (SaveOutcome.success i r)).1._rev = r
        ∧ (handleSave (saveSubmit d).1 (SaveOutcome.success i r)).2
            = Notification.completed) := by
  simp [saveSubmit, handleSave, h]

theorem c4_save_insert_retry_witness :
    doc0.isNew = true
    ∧ ((saveSubmit doc0).1.isNew = false ∧ (saveSubmit doc0).1.inserting = true) :=
  ⟨by decide,
   ⟨(c4_save_insert_retry doc0 (by decide)).1, (c4_save_insert_retry doc0 (by decide)).2.1⟩⟩

/-- C8 counterexample: on a non-new document whose first insert is still in
flight, save does alter the inserting flag (the source assigns it false in
the non-new branch), refuting the frame part of the claim. -/
theorem c8_counterexample :
    doc1.isNew = false ∧ doc1.inserting = true ∧ (saveSubmit doc1).1.inserting = false := by
  decide

/-- C8 amended: saving a non-new document submits the same insert-style
write as the new-document path for the same instance and leaves isNew
unchanged, but it sets the inserting flag to false (so a later failure is
not treated as a failed first insert). -/
theorem c8_nonnew_save (d : DocState) (h : d.isNew = false) :
    saveSubmit d = ({ d with inserting := false }, WriteReq.insert d._id d._rev)
    ∧ (saveSubmit d).2 = (saveSubmit { d with isNew := true }).2 := by
  simp [saveSubmit, h]

theorem c8_nonnew_save_witness :
    doc1.isNew = false
    ∧ saveSubmit doc1 = ({ doc1 with inserting := false }, WriteReq.insert doc1._id doc1._rev) :=
  ⟨by decide, (c8_nonnew_save doc1 (by decide)).1⟩

/-! ## Removal theorems -/

/-- C6: a remove issued while a removal promise is in the removing slot
attaches its completion to that promise and sends nothing to the store;
from an idle instance, two removes issue exactly one delete between them
and one resolution notifies both attached completions with the same
outcome. -/
theorem c6_remove_coalescing (s : RemState) (p : RemovePromise) (fn1 fn2 : Nat) :
    (s.removing = some p →
      removeCall s fn2
        = ({ s with removing := some { p with callbacks := p.callbacks ++ [fn2] } }, []))
    ∧ (s.removing = none →
        (removeCall s fn1).2 = [DeleteReq.remove s._id s._rev]
        ∧ (removeCall (removeCall s fn1).1 fn2).2 = []
        ∧ (removeCall (removeCall s fn1).1 fn2).1.removing
            = some { callbacks := [fn1, fn2], settled := none }
        ∧ (∀ ok, (removeResolve (removeCall (removeCall s fn1).1 fn2).1 ok).2
            = [(fn1, ok), (fn2, ok)])) := by
  constructor
  · intro h
    simp [removeCall, h]
  · intro h
    refine ⟨by simp [removeCall, h], by simp [removeCall, h], by simp [removeCall, h], ?_⟩
    intro ok
    cases ok <;> simp [removeCall, removeResolve, h]

theorem c6_remove_coalescing_witness :
    rem0.removing = none
    ∧ (removeCall rem0 1).2 = [DeleteReq.remove rem0._id rem0._rev]
    ∧ (removeCall (removeCall rem0 1).1 2).2 = [] :=
  ⟨by decide,
   ((c6_remove_coalescing rem0 { callbacks := [] } 1 2).2 (by decide)).1,
   ((c6_remove_coalescing rem0 { callbacks := [] } 1 2).2 (by decide)).2.1⟩

/-- C10: the removal marker is cleared only on failure.  After a failed
resolution the removing slot is null and a later remove issues a fresh
delete; after a successful resolution the settled promise stays in the slot,
so every later remove only attaches to it and issues no delete. -/
theorem c10_remove_marker_asymmetry (s : RemState) (p : RemovePromise) (fn : Nat)
    (h : s.removing = some p) :
    (removeResolve s false).1.removing = none
    ∧ (removeCall (removeResolve s false).1 fn).2 = [DeleteReq.remove s._id s._rev]
    ∧ (removeResolve s true).1.removing = some { p with settled := some true }
    ∧ (removeCall (removeResolve s true).1 fn).2 = []
    ∧ (removeCall (removeResolve s true).1 fn).1.removing
        = some { callbacks := p.callbacks ++ [fn], settled := some true } := by
  simp [removeResolve, removeCall, h]

theorem c10_remove_marker_asymmetry_witness :
    (removeCall rem0 7).1.removing = some { callbacks := [7], settled := none }
    ∧ (removeResolve (removeCall rem0 7).1 false).1.removing = none
    ∧ (removeResolve (removeCall rem0 7).1 true).1.removing
        = some { callbacks := [7], settled := some true } :=
  ⟨by decide,
   (c10_remove_marker_asymmetry (removeCall rem0 7).1 { callbacks := [7] } 7 (by decide)).1,
   (c10_remove_marker_asymmetry (removeCall rem0 7).1 { callbacks := [7] } 7 (by decide)).2.2.1⟩

/-! ## Default-view loop lemmas -/

theorem defaultViewLoop_error_shape (schema : ModelSchema)
    (hnull : hasRootNullMapping schema = false) :
    ∀ (l : List (String × ViewSpec)) (dv : Option String) (e : JsErr),
      defaultViewLoop schema dv l = .error e → e = JsErr.moreThanOneDefault := by
  intro l
  induction l with
  | nil => intro dv e he; simp [defaultViewLoop] at he
  | cons kv rest ih =>
    intro dv e he
    simp only [defaultViewLoop] at he
    by_cases hflag : kv.2.asDefaultIndex = true
    · rw [if_pos hflag] at he
      by_cases hdv : dv.isSome = true
      · rw [if_pos hdv] at he
        injection he with h
        exact h.symm
      · rw [if_neg hdv] at he
        cases hm : schema.discriminatorMapping with
        | none =>
          simp only [hm] at he
          exact ih _ _ he
        | some m =>
          simp only [hm] at he
          cases hv : m.value with
          | none =>
            simp [hasRootNullMapping, hm, hv] at hnull
          | some vv =>
            simp only [hv, jsToCollectionName] at he
            exact ih _ _ he
    · rw [if_neg hflag] at he
      exact ih _ _ he

theorem defaultViewLoop_some_error (schema : ModelSchema) :
    ∀ (l : List (String × ViewSpec)) (v : String),
      1 ≤ l.countP (fun kv => kv.2.asDefaultIndex) →
      ∃ e, defaultViewLoop schema (some v) l = .error e := by
  intro l
  induction l with
  | nil => intro v h; simp at h
  | cons kv rest ih =>
    intro v h
    by_cases hflag : kv.2.asDefaultIndex = true
    · exact ⟨.moreThanOneDefault, by simp [defaultViewLoop, hflag]⟩
    · have h' : 1 ≤ rest.countP (fun kv => kv.2.asDefaultIndex) := by
        rw [List.countP_cons] at h
        simp only [hflag] at h
        simpa using h
      obtain ⟨e, he⟩ := ih v h'
      exact ⟨e, by simp [defaultViewLoop, hflag, he]⟩

theorem defaultViewLoop_two_error (schema : ModelSchema) :
    ∀ (l : List (String × ViewSpec)) (dv : Option String),
      2 ≤ l.countP (fun kv => kv.2.asDefaultIndex) →
      ∃ e, defaultViewLoop schema dv l = .error e := by
  intro l
  induction l with
  | nil => intro dv h; simp at h
  | cons kv rest ih =>
    intro dv h
    by_cases hflag : kv.2.asDefaultIndex = true
    · cases dv with
      | some v => exact ⟨.moreThanOneDefault, by simp [defaultViewLoop, hflag]⟩
      | none =>
        have h1 : 1 ≤ rest.countP (fun kv => kv.2.asDefaultIndex) := by
          rw [List.countP_cons] at h
          simp only [hflag, if_pos] at h
          omega
        cases hm : schema.discriminatorMapping with
        | none =>
          obtain ⟨e, he⟩ := defaultViewLoop_some_error schema rest ("$root/" ++ kv.1) h1
          exact ⟨e, by simp [defaultViewLoop, hflag, hm, he]⟩
        | some m =>
          cases hv : m.value with
          | some vv =>
            obtain ⟨e, he⟩ :=
              defaultViewLoop_some_error schema rest (toCollectionName vv ++ "/" ++ kv.1) h1
            exact ⟨e, by simp [defaultViewLoop, hflag, hm, hv, jsToCollectionName, he]⟩
          | none =>
            exact ⟨.typeError, by simp [defaultViewLoop, hflag, hm, hv, jsToCollectionName]⟩
    · have h' : 2 ≤ rest.countP (fun kv => kv.2.asDefaultIndex) := by
        rw [List.countP_cons] at h
        have hb2 : kv.2.asDefaultIndex = false := by simpa using hflag
        simp only [hb2] at h
        simp at h
        omega
      obtain ⟨e, he⟩ := ih dv h'
      exact ⟨e, by simp [defaultViewLoop, hflag, he]⟩

/-- C5 amended: with more than one view flagged as the default index,
ensureIndexes fails before the ensuringIndexes increment, the design-document
read and any write; the error is the duplicate-default configuration error
except when the schema carries the root discriminatorMapping (null value),
where the toCollectionName TypeError fires at the first flagged view instead,
still with nothing persisted. -/
theorem c5_duplicate_default_aborts (schema : ModelSchema) (stored : Option DesignDoc)
    (h2 : 2 ≤ (jsViews schema).countP (fun kv => kv.2.asDefaultIndex)) :
    (ensureIndexes schema stored).err.isSome = true
    ∧ (ensureIndexes schema stored).incremented = false
    ∧ (ensureIndexes schema stored).readDesign = false
    ∧ (ensureIndexes schema stored).wrote = false
    ∧ (ensureIndexes schema stored).written = none
    ∧ (hasRootNullMapping schema = false →
        (ensureIndexes schema stored).err = some JsErr.moreThanOneDefault) := by
  obtain ⟨e, he⟩ := defaultViewLoop_two_error schema (jsViews schema) none h2
  have hrun : ensureIndexes schema stored = { err := some e, listsAfter := schema.lists } := by
    unfold ensureIndexes ensureIndexesE
    rw [he]
  rw [hrun]
  refine ⟨rfl, rfl, rfl, rfl, rfl, ?_⟩
  intro hnull
  rw [defaultViewLoop_error_shape schema hnull (jsViews schema) none e he]

theorem c5_duplicate_default_aborts_witness :
    2 ≤ (jsViews c5Schema).countP (fun kv => kv.2.asDefaultIndex)
    ∧ (ensureIndexes c5Schema none).err.isSome = true
    ∧ (ensureIndexes c5Schema none).incremented = false :=
  ⟨by decide, (c5_duplicate_default_aborts c5Schema none (by decide)).1,
   (c5_duplicate_default_aborts c5Schema none (by decide)).2.1⟩

/-- C5 counterexample: on a root schema that carries the root
discriminatorMapping and flags two views as default, the run fails with the
toCollectionName TypeError raised at the first flagged view, not with the
duplicate-default configuration error the claim names. -/
theorem c5_counterexample :
    (ensureIndexes c5Schema none).err = some JsErr.typeError
    ∧ JsErr.typeError ≠ JsErr.moreThanOneDefault := by
  constructor <;> decide

/-- C1 failing run: on a derived discriminator schema with a custom list
function and an unchanged schema, the first run writes the design document
and mutates schema.options.lists in place; the second run applies the
getRow and brace rewrite to the already-rewritten source, finds it textually
different from the stored one and performs a second write, so the second run
is not write-free. -/
theorem c1_second_run_writes :
    (ensureIndexes listsSchema none).wrote = true
    ∧ (ensureIndexes listsSchemaAfterFirstRun (ensureIndexes listsSchema none).written).wrote
        = true := by
  constructor <;> decide

/-- C7 failing run: on a derived schema with an implicitly indexed field and
a custom view flagged as the default index, ensureIndexes assigns the
implied by-field view reference, overwriting the flagged custom view the
claim requires; and a root schema that carries a discriminatorMapping with
isRoot true is routed through toCollectionName(null), which throws instead
of producing the root-scope reference. -/
theorem c7_default_view_scope :
    (ensureIndexes c7Schema none).defaultView = some (some "groups/byName")
    ∧ "groups/byName" ≠ "groups/names"
    ∧ (ensureIndexes { c7Schema with discriminatorMapping := some rootNullMapping } none).err
        = some JsErr.typeError := by
  refine ⟨by decide, by decide, by decide⟩

/-! ## Discriminator merge lemmas -/

theorem lookupA_append {α : Type} (k : String) (a b : List (String × α)) :
    lookupA k (a ++ b) = match lookupA k a with
      | some v => some v
      | none => lookupA k b := by
  induction a with
  | nil => simp [lookupA]
  | cons kv rest ih =>
    by_cases h : kv.1 = k <;> simp [lookupA, h, ih]

theorem validate_discriminatorKey (a b : SchemaOptions) :
    (neutralizeCustomizable (mergeKeepExisting a b) b).discriminatorKey
      = a.discriminatorKey := rfl

theorem validate_extra (a b : SchemaOptions) :
    (neutralizeCustomizable (mergeKeepExisting a b) b).extra
      = a.extra ++ b.extra.filter (fun kv => (lookupA kv.1 a.extra).isNone) := rfl

theorem copyRootOnly_discriminatorKey (a b : SchemaOptions) :
    (copyRootOnly a b).discriminatorKey = a.discriminatorKey := rfl

theorem copyRootOnly_extra (a b : SchemaOptions) :
    (copyRootOnly a b).extra = a.extra := rfl

/-- C9 amended: discriminator registration fails, registering nothing, when
the parent schema is itself a non-root discriminator, when the discriminator
key is already a declared child path, or when a child option outside the
customizable subset and outside the root-copied collection, autoIndex and
disableCache trio diverges from the root options (shown for the
discriminator-key option and for an arbitrary named extra option). -/
theorem c9_discriminator_validation (parent child : DSchema) (reg : List String)
    (name : String) :
    (parentRootOk parent = false →
      discriminator parent reg name child = .error .nonRootParent)
    ∧ (parentRootOk parent = true →
        child.paths.contains parent.options.discriminatorKey = true →
        discriminator parent reg name child = .error .keyFieldExists)
    ∧ (parentRootOk parent = true →
        child.paths.contains parent.options.discriminatorKey = false →
        child.options.discriminatorKey ≠ parent.options.discriminatorKey →
        discriminator parent reg name child = .error .invalidOptions)
    ∧ (parentRootOk parent = true →
        child.paths.contains parent.options.discriminatorKey = false →
        ∀ k v, lookupA k child.options.extra = some v →
          lookupA k parent.options.extra ≠ some v →
          discriminator parent reg name child = .error .invalidOptions) := by
  refine ⟨?_, ?_, ?_, ?_⟩
  · intro h
    simp [discriminator, h]
  · intro h hc
    have hmem : parent.options.discriminatorKey ∈ child.paths := by simpa using hc
    simp [discriminator, h, hmem]
  · intro h hc hkey
    have hmem : parent.options.discriminatorKey ∉ child.paths := by simpa using hc
    have hval : validateOptions (copyRootOnly child.options parent.options)
        parent.options = false := by
      unfold validateOptions
      apply decide_eq_false
      intro heq
      apply hkey
      have hk := congrArg SchemaOptions.discriminatorKey heq
      rwa [validate_discriminatorKey, copyRootOnly_discriminatorKey] at hk
    simp [discriminator, h, hmem, hval]
  · intro h hc k v hck hpk
    have hmem : parent.options.discriminatorKey ∉ child.paths := by simpa using hc
    have hval : validateOptions (copyRootOnly child.options parent.options)
        parent.options = false := by
      unfold validateOptions
      apply decide_eq_false
      intro heq
      have hx := congrArg SchemaOptions.extra heq
      rw [validate_extra] at hx
      have hck2 : lookupA k (copyRootOnly child.options parent.options).extra = some v := hck
      have hlk : lookupA k ((copyRootOnly child.options parent.options).extra
          ++ parent.options.extra.filter
              (fun kv => (lookupA kv.1 (copyRootOnly child.options parent.options).extra).isNone))
          = some v := by
        rw [lookupA_append, hck2]
      rw [hx] at hlk
      exact hpk hlk
    simp [discriminator, h, hmem, hval]

theorem c9_discriminator_validation_witness :
    (parentRootOk c9BadParent = false
      ∧ discriminator c9BadParent [] "Boss" c9PlainChild = .error .nonRootParent)
    ∧ (c9KeyChild.paths.contains c9Parent.options.discriminatorKey = true
      ∧ discriminator c9Parent [] "Boss" c9KeyChild = .error .keyFieldExists)
    ∧ discriminator c9Parent [] "Boss" c9KeyOptChild = .error .invalidOptions
    ∧ discriminator c9Parent [] "Boss" c9ExtraChild = .error .invalidOptions :=
  ⟨⟨by decide,
    (c9_discriminator_validation c9BadParent c9PlainChild [] "Boss").1 (by decide)⟩,
   ⟨by decide,
    (c9_discriminator_validation c9Parent c9KeyChild [] "Boss").2.1 (by decide) (by decide)⟩,
   (c9_discriminator_validation c9Parent c9KeyOptChild [] "Boss").2.2.1
     (by decide) (by decide) (by decide),
   (c9_discriminator_validation c9Parent c9ExtraChild [] "Boss").2.2.2
     (by decide) (by decide) "strict" "false" (by decide) (by decide)⟩

/-- C9 counterexample: a child schema whose options differ from the root
only in collection, an option outside the customizable subset, is accepted
and registered: the option is overwritten from the root before validation,
so no configuration error is thrown. -/
theorem c9_counterexample :
    c9Child.options.collection ≠ c9Parent.options.collection
    ∧ (discriminator c9Parent [] "Boss" c9Child).isOk = true := by
  constructor <;> decide

/-! ## Guard-splicing lemmas -/

theorem data_append (a b : String) : (a ++ b).data = a.data ++ b.data := rfl

theorem replaceFirstS_data (pat repl s : String) :
    (replaceFirstS pat repl s).data = replaceFirstL pat.data repl.data s.data := rfl

theorem replaceFirst_brace_guard (eo : List Char) :
    ∀ m : List Char, lbrace ∈ m →
      ∃ p r, replaceFirstL [lbrace] (lbrace :: eo) m = p ++ lbrace :: (eo ++ r)
        ∧ lbrace ∉ p := by
  intro m
  induction m with
  | nil => intro h; simp at h
  | cons c rest ih =>
    intro h
    by_cases hc : c = lbrace
    · subst hc
      refine ⟨[], rest, ?_, by simp⟩
      rw [replaceFirstL, if_pos (by simp [List.isPrefixOf])]
      simp
    · have h2 : lbrace ∈ rest := by
        rcases List.mem_cons.1 h with h | h
        · exact absurd h.symm hc
        · exact h
      obtain ⟨p, r, hrw, hp⟩ := ih h2
      refine ⟨c :: p, r, ?_, ?_⟩
      · rw [replaceFirstL, if_neg (by simp [List.isPrefixOf]; exact fun hh => hc hh.symm)]
        rw [hrw]
        simp
      · intro hmem
        rcases List.mem_cons.1 hmem with hh | hh
        · exact hc hh.symm
        · exact hp hh

theorem mapGuarded_append (key value s t : String)
    (h : mapGuarded key value s) : mapGuarded key value (s ++ t) := by
  obtain ⟨p, r, hd, hp⟩ := h
  exact ⟨p, r ++ t.data, by rw [data_append, hd]; simp, hp⟩

theorem mapGuarded_base (key value : String) :
    mapGuarded key value ("function(doc)\x7b" ++ discriminatorEarlyOut key value) := by
  refine ⟨"function(doc)".data, [], ?_, by decide⟩
  rw [data_append]
  have h1 : ("function(doc)\x7b" : String).data = "function(doc)".data ++ [lbrace] := by decide
  rw [h1]
  simp

theorem mapGuarded_replace (key value m : String) (h : lbrace ∈ m.data) :
    mapGuarded key value
      (replaceFirstS "\x7b" ("\x7b" ++ discriminatorEarlyOut key value) m) := by
  obtain ⟨p, r, hrw, hp⟩ :=
    replaceFirst_brace_guard (discriminatorEarlyOut key value).data m.data h
  refine ⟨p, r, ?_, hp⟩
  rw [replaceFirstS_data]
  have hpat : ("\x7b" : String).data = [lbrace] := by decide
  have hrepl : ("\x7b" ++ discriminatorEarlyOut key value).data
      = lbrace :: (discriminatorEarlyOut key value).data := by
    rw [data_append, hpat]
    rfl
  rw [hpat, hrepl, hrw]

theorem discriminatorEarlyOut_ne_empty (key value : String) :
    ¬ (discriminatorEarlyOut key value = "") := by
  intro h
  have hd := congrArg (fun s => s.data.length) h
  simp only [discriminatorEarlyOut, data_append] at hd
  have h9 : ("if (doc['" : String).data.length = 9 := by decide
  have h0 : ("" : String).data.length = 0 := by decide
  simp [List.length_append, h9, h0] at hd

/-! ## Association-list lemmas -/

theorem lookupA_setAssoc_self {α : Type} (k : String) (v : α) (l : List (String × α)) :
    lookupA k (setAssoc k v l) = some v := by
  induction l with
  | nil => simp [setAssoc, lookupA]
  | cons kv rest ih =>
    by_cases h : kv.1 = k
    · simp [setAssoc, h, lookupA]
    · simp [setAssoc, h, lookupA, ih]

theorem lookupA_setAssoc_ne {α : Type} (k n : String) (v : α) (l : List (String × α))
    (h : n ≠ k) : lookupA n (setAssoc k v l) = lookupA n l := by
  induction l with
  | nil =>
    have hkn : ¬ (k = n) := fun hx => h hx.symm
    simp [setAssoc, lookupA, hkn]
  | cons kv rest ih =>
    by_cases hh : kv.1 = k
    · subst hh
      have hkn : ¬ (kv.1 = n) := fun hx => h hx.symm
      simp [setAssoc, lookupA, hkn]
    · simp [setAssoc, hh, lookupA, ih]

theorem lookupA_filter_nameq {α : Type} (q : String → Bool) (l : List (String × α)) (n : String) :
    lookupA n (l.filter (fun nv => q nv.1)) = if q n then lookupA n l else none := by
  induction l with
  | nil => cases hq : q n <;> simp [lookupA, hq]
  | cons kv rest ih =>
    rw [List.filter_cons]
    by_cases hk : kv.1 = n
    · subst hk
      cases hq : q kv.1
      · rw [if_neg (by simp [hq]), ih, if_neg (by simp [hq]), if_neg (by simp [hq])]
      · rw [if_pos (by simp [hq]), if_pos (by simp [hq])]
        simp [lookupA]
    · cases hq : q kv.1
      · rw [if_neg (by simp [hq]), ih]
        cases hqn : q n <;> simp [lookupA, hk, hqn]
      · rw [if_pos (by simp [hq])]
        cases hqn : q n <;> simp [lookupA, hk, hqn, ih]

/-! ## View equivalence and guard preservation -/

theorem equivalent_map_eq (a b : ViewDef) (h : hasEquivalentViewDef (some a) b = true) :
    a.map = none ∨ a.map = b.map := by
  cases ham : a.map with
  | none => exact Or.inl rfl
  | some m =>
    right
    cases har : a.reduce <;> cases hbm : b.map <;> cases hbr : b.reduce <;>
      simp [hasEquivalentViewDef, hasEquivalentFunctions, ViewDef.toPairs, ham, har,
        hbm, hbr, lookupA] at h ⊢ <;>
      simp [h]

theorem guardedSt_keep (key value : String) (st st2 : MUIState) (viewName : String)
    (hv : st2.views = st.views)
    (hn : ∀ n, n ∈ requiredNames st2 → n ∈ requiredNames st ∨ n = viewName)
    (hgood : ∀ vd, lookupA viewName st.views = some vd →
        ∀ s, vd.map = some s → mapGuarded key value s)
    (hst : GuardedSt key value st) : GuardedSt key value st2 := by
  intro n vd hl hnm s hs
  rw [hv] at hl
  rcases hn n hnm with h | rfl
  · exact hst n vd hl h s hs
  · exact hgood vd hl s hs

theorem guardedSt_set (key value : String) (st st2 : MUIState) (viewName : String)
    (vdef : ViewDef)
    (hv : st2.views = setAssoc viewName vdef st.views)
    (hn : ∀ n, n ∈ requiredNames st2 → n ∈ requiredNames st ∨ n = viewName)
    (hvd : ∀ s, vdef.map = some s → mapGuarded key value s)
    (hst : GuardedSt key value st) : GuardedSt key value st2 := by
  intro n vd hl hnm s hs
  rw [hv] at hl
  by_cases hne : n = viewName
  · subst hne
    rw [lookupA_setAssoc_self] at hl
    cases hl
    exact hvd s hs
  · rw [lookupA_setAssoc_ne _ _ _ _ hne] at hl
    rcases hn n hnm with h | h
    · exact hst n vd hl h s hs
    · exact absurd h hne

theorem maybeUpdateIndex_none_eq (schema : ModelSchema) (eo : String) (st : MUIState)
    (name : String) :
    maybeUpdateIndex schema eo st name none
      = (if hasEquivalentViewDef (lookupA ("by" ++ capFirst name) st.views)
            { map := some ("function(doc)\x7b" ++ eo ++ "emit(doc." ++ name
                ++ (match treeIndex schema name with
                    | IndexFlag.keyMod s => s
                    | _ => "") ++ ",doc);\x7d")
              reduce := none }
        then { st with indexViewNames := st.indexViewNames ++ ["by" ++ capFirst name] }
        else { st with
               indexViewNames := st.indexViewNames ++ ["by" ++ capFirst name]
               views := setAssoc ("by" ++ capFirst name)
                 { map := some ("function(doc)\x7b" ++ eo ++ "emit(doc." ++ name
                     ++ (match treeIndex schema name with
                         | IndexFlag.keyMod s => s
                         | _ => "") ++ ",doc);\x7d")
                   reduce := none } st.views
               modified := true }) := rfl

theorem maybeUpdateIndex_some_eq (schema : ModelSchema) (eo : String) (st : MUIState)
    (name : String) (sp : ViewSpec) :
    maybeUpdateIndex schema eo st name (some sp)
      = (if hasEquivalentViewDef (lookupA name st.views)
            { map := match sp.map with
                | some m => some (if eo = "" then m else replaceFirstS "\x7b" ("\x7b" ++ eo) m)
                | none => none
              reduce := sp.reduce }
        then { st with customViewNames := st.customViewNames ++ [name] }
        else { st with
               customViewNames := st.customViewNames ++ [name]
               views := setAssoc name
                 { map := match sp.map with
                     | some m => some (if eo = "" then m else replaceFirstS "\x7b" ("\x7b" ++ eo) m)
                     | none => none
                   reduce := sp.reduce } st.views
               modified := true }) := rfl

theorem guarded_branch (key value : String) (st : MUIState) (vn : String) (vdef : ViewDef)
    (stK stS : MUIState)
    (hK : stK.views = st.views)
    (hKn : ∀ n, n ∈ requiredNames stK → n ∈ requiredNames st ∨ n = vn)
    (hS : stS.views = setAssoc vn vdef st.views)
    (hSn : ∀ n, n ∈ requiredNames stS → n ∈ requiredNames st ∨ n = vn)
    (hvd : ∀ s, vdef.map = some s → mapGuarded key value s)
    (hst : GuardedSt key value st) :
    GuardedSt key value
      (if hasEquivalentViewDef (lookupA vn st.views) vdef then stK else stS) := by
  by_cases heq : hasEquivalentViewDef (lookupA vn st.views) vdef = true
  · rw [if_pos heq]
    refine guardedSt_keep key value st stK vn hK hKn ?_ hst
    intro vd hl s hs
    rw [hl] at heq
    rcases equivalent_map_eq vd vdef heq with hnone | hmap
    · rw [hnone] at hs; cases hs
    · rw [hmap] at hs
      exact hvd s hs
  · rw [if_neg heq]
    exact guardedSt_set key value st stS vn vdef hS hSn hvd hst

theorem maybeUpdateIndex_guarded (schema : ModelSchema) (key value : String)
    (st : MUIState) (name : String) (spec : Option ViewSpec)
    (hspec : ∀ sp, spec = some sp → ∀ s, sp.map = some s → lbrace ∈ s.data)
    (hst : GuardedSt key value st) :
    GuardedSt key value
      (maybeUpdateIndex schema (discriminatorEarlyOut key value) st name spec) := by
  cases spec with
  | none =>
    rw [maybeUpdateIndex_none_eq]
    refine guarded_branch key value st _ _ _ _ ?_ ?_ ?_ ?_ ?_ hst
    · rfl
    · intro n hn
      simp only [requiredNames, List.mem_append, List.mem_singleton] at hn ⊢
      tauto
    · rfl
    · intro n hn
      simp only [requiredNames, List.mem_append, List.mem_singleton] at hn ⊢
      tauto
    · intro s hs
      obtain rfl := Option.some.inj hs
      exact mapGuarded_append _ _ _ _ (mapGuarded_append _ _ _ _ (mapGuarded_append _ _ _ _
        (mapGuarded_append _ _ _ _ (mapGuarded_base key value))))
  | some sp =>
    rw [maybeUpdateIndex_some_eq]
    refine guarded_branch key value st _ _ _ _ ?_ ?_ ?_ ?_ ?_ hst
    · rfl
    · intro n hn
      simp only [requiredNames, List.mem_append, List.mem_singleton] at hn ⊢
      tauto
    · rfl
    · intro n hn
      simp only [requiredNames, List.mem_append, List.mem_singleton] at hn ⊢
      tauto
    · intro s hs
      cases hm : sp.map with
      | none => simp [hm] at hs
      | some m =>
        simp only [hm] at hs
        rw [if_neg (discriminatorEarlyOut_ne_empty key value)] at hs
        obtain rfl := Option.some.inj hs
        exact mapGuarded_replace key value m (hspec sp rfl m hm)

theorem foldl_index_guarded (schema : ModelSchema) (key value : String)
    (names : List String) :
    ∀ st : MUIState, GuardedSt key value st →
      GuardedSt key value
        (names.foldl (fun st name =>
          maybeUpdateIndex schema (discriminatorEarlyOut key value) st name none) st) := by
  induction names with
  | nil => intro st hst; exact hst
  | cons n rest ih =>
    intro st hst
    exact ih _ (maybeUpdateIndex_guarded schema key value st n none
      (fun sp h => by cases h) hst)

theorem foldl_custom_guarded (schema : ModelSchema) (key value : String)
    (cvs : List (String × ViewSpec))
    (hcv : ∀ kv ∈ cvs, ∀ s, kv.2.map = some s → lbrace ∈ s.data) :
    ∀ st : MUIState, GuardedSt key value st →
      GuardedSt key value
        (cvs.foldl (fun st kv =>
          maybeUpdateIndex schema (discriminatorEarlyOut key value) st kv.1 (some kv.2)) st) := by
  induction cvs with
  | nil => intro st hst; exact hst
  | cons kv rest ih =>
    intro st hst
    refine ih (fun x hx => hcv x (List.mem_cons_of_mem _ hx)) _
      (maybeUpdateIndex_guarded schema key value st kv.1 (some kv.2) ?_ hst)
    intro sp hsp s hs
    cases hsp
    exact hcv kv (List.mem_cons_self _ _) s hs

theorem processViews_guarded (schema : ModelSchema) (key value : String)
    (indexes : List String) (views0 : List (String × ViewDef)) (modified0 : Bool)
    (hcv : ∀ kv ∈ jsViews schema, ∀ s, kv.2.map = some s → lbrace ∈ s.data) :
    GuardedSt key value
      (processViews schema (discriminatorEarlyOut key value) indexes views0 modified0) := by
  unfold processViews
  apply foldl_custom_guarded schema key value (jsViews schema) hcv
  apply foldl_index_guarded
  intro n vd hl hn s hs
  simp [requiredNames] at hn

theorem pruneViews_guarded (key value : String) (st : MUIState)
    (hst : GuardedSt key value st) :
    ∀ n vd, lookupA n (match (pruneViews st).1 with | some vs => vs | none => []) = some vd →
      ∀ s, vd.map = some s → mapGuarded key value s := by
  intro n vd hl s hs
  unfold pruneViews at hl
  by_cases hemp : (st.customViewNames.isEmpty && st.indexViewNames.isEmpty) = true
  · rw [if_pos hemp] at hl
    simp [lookupA] at hl
  · rw [if_neg hemp] at hl
    have hfl := lookupA_filter_nameq
      (fun x => st.customViewNames.contains x || st.indexViewNames.contains x) st.views n
    simp only at hfl
    rw [hfl] at hl
    by_cases hq : (st.customViewNames.contains n || st.indexViewNames.contains n) = true
    · rw [if_pos hq] at hl
      refine hst n vd hl ?_ s hs
      simp only [requiredNames, List.mem_append]
      rcases Bool.or_eq_true_iff.1 hq with h | h
      · exact Or.inl (by simpa using h)
      · exact Or.inr (by simpa using h)
    · rw [if_neg hq] at hl
      cases hl

theorem impliedIndexes_nonroot (schema : ModelSchema) (m : DiscriminatorMapping) (vv : String)
    (hm : schema.discriminatorMapping = some m) (hroot : m.isRoot = false)
    (hval : m.value = some vv) (indexes : List String) (dv0 : Option String) :
    ∃ indexes2 dv2,
      impliedIndexes schema indexes dv0
        = .ok (toCollectionName vv, discriminatorEarlyOut m.key vv, indexes2, dv2) := by
  unfold impliedIndexes
  rw [hm]
  simp only [hroot, hval, jsToCollectionName, jsStr, Bool.false_eq_true, if_false]
  split
  · exact ⟨_, _, rfl⟩
  · split
    · exact ⟨_, _, rfl⟩
    · exact ⟨_, _, rfl⟩

theorem callbackDesign_views (schema : ModelSchema) (stored : Option DesignDoc)
    (earlyOut : String) (indexes : List String) :
    ∃ vs0 m0,
      (callbackDesign schema stored earlyOut indexes).1.views
        = (pruneViews (processViews schema earlyOut indexes vs0 m0)).1 :=
  ⟨_, _, rfl⟩

theorem ensureIndexes_char (schema : ModelSchema) (stored : Option DesignDoc)
    (dv0 : Option String) (dd eo : String) (idx2 : List String) (dv2 : Option String)
    (hdl : defaultViewLoop schema none (jsViews schema) = .ok dv0)
    (himp : impliedIndexes schema (schemaIndexes schema) dv0 = .ok (dd, eo, idx2, dv2)) :
    ensureIndexes schema stored
      = if (idx2.isEmpty && schema.views.isNone && schema.updates.isNone
            && schema.lists.isNone) then
          { listsAfter := schema.lists }
        else
          { err := none, incremented := true, readDesign := true,
            designDocId := some dd, defaultView := some dv2,
            listsAfter := rewriteLists schema eo,
            wrote := (callbackDesign schema stored eo idx2).2,
            written := if (callbackDesign schema stored eo idx2).2
                       then some (callbackDesign schema stored eo idx2).1 else none } := by
  have h1 : ensureIndexesE schema stored
      = match impliedIndexes schema (schemaIndexes schema) dv0 with
        | .error e => .error e
        | .ok (designDocId, earlyOut, indexes, dv) =>
          if (indexes.isEmpty && schema.views.isNone && schema.updates.isNone
              && schema.lists.isNone) then
            .ok { listsAfter := schema.lists }
          else
            .ok { err := none, incremented := true, readDesign := true,
                  designDocId := some designDocId, defaultView := some dv,
                  listsAfter := rewriteLists schema earlyOut,
                  wrote := (callbackDesign schema stored earlyOut indexes).2,
                  written := if (callbackDesign schema stored earlyOut indexes).2
                             then some (callbackDesign schema stored earlyOut indexes).1
                             else none } := by
    unfold ensureIndexesE
    rw [hdl]
  rw [himp] at h1
  have h2 : ensureIndexesE schema stored
      = if (idx2.isEmpty && schema.views.isNone && schema.updates.isNone
            && schema.lists.isNone) then
          (.ok { listsAfter := schema.lists } : Except JsErr EnsureRun)
        else
          .ok { err := none, incremented := true, readDesign := true,
                designDocId := some dd, defaultView := some dv2,
                listsAfter := rewriteLists schema eo,
                wrote := (callbackDesign schema stored eo idx2).2,
                written := if (callbackDesign schema stored eo idx2).2
                           then some (callbackDesign schema stored eo idx2).1 else none } := by
    rw [h1]
  unfold ensureIndexes
  rw [h2]
  by_cases hcond : (idx2.isEmpty && schema.views.isNone && schema.updates.isNone
      && schema.lists.isNone) = true
  · rw [if_pos hcond, if_pos hcond]
  · rw [if_neg hcond, if_neg hcond]

/-- C2: for a model bound to a non-root discriminator schema with key k and
variant value v, every map function that ensureIndexes writes into the
variant design document - the synthesized by-field views and every custom
view (whose given source contains a function-body brace, as every serialized
JS function does) - begins with the guard that returns before any emit
whenever doc[k] differs from v; and under the guarded-map semantics a
document tagged with a sibling value yields no row, so a view of variant A
never returns a document tagged as B. -/
theorem c2_discriminator_guard (schema : ModelSchema) (stored : Option DesignDoc)
    (m : DiscriminatorMapping) (vv : String)
    (hm : schema.discriminatorMapping = some m)
    (hroot : m.isRoot = false)
    (hval : m.value = some vv)
    (hcv : ∀ kv ∈ jsViews schema, ∀ s, kv.2.map = some s → lbrace ∈ s.data) :
    (∀ d, (ensureIndexes schema stored).written = some d →
      (ensureIndexes schema stored).designDocId = some (toCollectionName vv)
      ∧ ∀ n vd, lookupA n (match d.views with | some vs => vs | none => []) = some vd →
          ∀ s, vd.map = some s → mapGuarded m.key vv s)
    ∧ (∀ body doc vB, doc m.key = vB → vB ≠ vv →
        evalGuardedMap m.key vv body doc = []) := by
  constructor
  · intro d hd
    cases hdl : defaultViewLoop schema none (jsViews schema) with
    | error e =>
      have hrun : ensureIndexes schema stored
          = { err := some e, listsAfter := schema.lists } := by
        unfold ensureIndexes ensureIndexesE
        rw [hdl]
      rw [hrun] at hd
      exact Option.noConfusion hd
    | ok dv0 =>
      obtain ⟨idx2, dv2, himp⟩ :=
        impliedIndexes_nonroot schema m vv hm hroot hval (schemaIndexes schema) dv0
      have hchar := ensureIndexes_char schema stored dv0 _ _ idx2 dv2 hdl himp
      rw [hchar] at hd ⊢
      by_cases hcond : (idx2.isEmpty && schema.views.isNone && schema.updates.isNone
          && schema.lists.isNone) = true
      · rw [if_pos hcond] at hd
        exact Option.noConfusion hd
      · rw [if_neg hcond] at hd ⊢
        have hd2 : (if (callbackDesign schema stored (discriminatorEarlyOut m.key vv) idx2).2
            then some (callbackDesign schema stored (discriminatorEarlyOut m.key vv) idx2).1
            else none) = some d := hd
        by_cases hw : (callbackDesign schema stored (discriminatorEarlyOut m.key vv) idx2).2
            = true
        · rw [if_pos hw] at hd2
          obtain rfl := Option.some.inj hd2
          refine ⟨rfl, ?_⟩
          obtain ⟨vs0, m0, hviews⟩ :=
            callbackDesign_views schema stored (discriminatorEarlyOut m.key vv) idx2
          rw [hviews]
          exact pruneViews_guarded m.key vv _
            (processViews_guarded schema m.key vv idx2 vs0 m0 hcv)
        · rw [if_neg hw] at hd2
          exact Option.noConfusion hd2
  · intro body doc vB hdoc hne
    unfold evalGuardedMap
    rw [hdoc, if_neg hne]

theorem c2_discriminator_guard_witness :
    c2Schema.discriminatorMapping = some groupMapping
    ∧ groupMapping.isRoot = false
    ∧ (∀ body doc vB, doc groupMapping.key = vB → vB ≠ "Group" →
        evalGuardedMap groupMapping.key "Group" body doc = []) :=
  ⟨rfl, rfl,
   (c2_discriminator_guard c2Schema none groupMapping "Group" rfl rfl rfl (by
      intro kv hkv s hs
      have hkv2 : kv = ("displayNames",
          ({ map := some "function (doc) \x7b emit(doc.displayName, doc); \x7d" } : ViewSpec)) := by
        simpa [jsViews, c2Schema] using hkv
      subst hkv2
      obtain rfl := Option.some.inj hs
      decide)).2⟩
